import Mathlib

/-!
# file-zipper: archive build, publish and retention sweep

Shallow embedding of `main.go`.

* `writeFileToZip`, `createZipArchive`, `copyFile`, `handleZip` are embedded
  over an explicit `World`: the storage root (read only), the temporary
  directory and the output directory. The calls into `os`, `io` and
  `archive/zip` are modelled at the level of files and archive entries.
* `cleanOldFiles` is embedded over a directory tree, together with
  `filepath.Walk` and the callback passed to it.

What the environment may do is part of the state: a source may be missing,
unreadable, a directory, or a file whose read fails part way; `os.CreateTemp`
may fail; the temporary file may stop taking writes; `os.WriteFile` may fail
at the open or stop early; in the swept tree `os.Lstat`, reading a directory
and `os.Remove` may fail on given entries. Outside of that, `os.Remove` on the
temporary file the job created succeeds. Each function is embedded as one
sequential run; other goroutines and processes are not part of the state.
-/

namespace FileZipper

/-! ## Errors and control outcomes -/

/-- A Go `error` value, identified by its message. -/
structure Error where
  msg : String
deriving DecidableEq

/-- How a Go function call ends: it returns, or the goroutine panics. -/
inductive Outcome (α : Type) where
  | ret (a : α)
  | panic (msg : String)

/-! ## Constants and request types (main.go 18-28) -/

def OUTPUT_DIR : String := "/output"

def SOURCE_DIR : String := "/storage"

structure zipFileName where
  Name : String
  Ext : String
  Alias : String
deriving DecidableEq

/-! ## Files and archives -/

/-- One entry of an archive: the header name and the stored bytes. -/
structure ZipEntry where
  name : String
  data : List UInt8
deriving DecidableEq

/-- State of a `zip.Writer`, which is also what it has emitted so far.
`dir` is the writer's `dir` field: the headers recorded for the central
directory, in creation order, each with the bytes stored for it.
`malformed` records that a header entered `dir` although its local header
was rejected. `closed` records that `Close` wrote the central directory. -/
structure ZipWriter where
  dir : List ZipEntry
  malformed : Bool
  closed : Bool
deriving DecidableEq

/-- What a reader finds in a file of the temporary or the output directory:
no bytes at all, all the bytes a zip writer in state `z` has emitted, or a cut
of such content that stops before its end. -/
inductive Content where
  | empty
  | zip (z : ZipWriter)
  | truncated (c : Content)
deriving DecidableEq

/-- What `./storage/<name>` resolves to. `regular` is a file that is read to
its end; `broken` is a file that opens and whose read fails after it has
delivered `bytes`. -/
inductive Source where
  | missing
  | denied
  | directory
  | regular (bytes : List UInt8)
  | broken (bytes : List UInt8)
deriving DecidableEq

/-- How `os.WriteFile` on a destination path goes: it succeeds, the open
fails, or the write stops early. -/
inductive WriteFault where
  | succeeds
  | openFails
  | shortWrite
deriving DecidableEq

/-- The part of the machine the build and publish path touches.
`storage` is keyed by the path handed to `os.Open`; `createTemp` is the fresh
name `os.CreateTemp` picks, or `none` when it fails; `tmpRoom` is how many
writes of the zip writer the temporary file still takes before its device
fails (`none`: it takes them all); `tmp` and `out` are the files of the
temporary directory and of the output directory, keyed by the path the
program uses for them. -/
structure World where
  storage : String → Source
  createTemp : Option String
  tmpRoom : Option Nat
  tmp : String → Option Content
  out : String → Option Content
  writeFault : String → WriteFault

def World.setTmp (w : World) (path : String) (c : Option Content) : World :=
  { w with tmp := fun p => if p = path then c else w.tmp p }

def World.setOut (w : World) (path : String) (c : Option Content) : World :=
  { w with out := fun p => if p = path then c else w.out p }

/-! ## Library calls used by the build path -/

/-- `os.Open`: fails on a missing or unreadable path; a directory opens. -/
def osOpen (storage : String → Source) (spath : String) : Except Error Source :=
  match storage spath with
  | .missing => .error ⟨"open: no such file or directory"⟩
  | .denied => .error ⟨"open: permission denied"⟩
  | s => .ok s

/-- `filepath.ToSlash` on a system whose path separator is the slash. -/
def ToSlash (s : String) : String := s

/-- Whether a header name denotes a directory for `archive/zip`
(`strings.HasSuffix(fh.Name, "/")`). -/
def isDirName (name : String) : Bool :=
  name.data.getLast? = some '/'

/-- Whether the temporary file takes one more write of the zip writer. -/
def roomTakes : Option Nat → Bool
  | some 0 => false
  | _ => true

/-- The room left after a write that was taken. The buffered writer under the
zip writer keeps its first error, so no room stays no room. -/
def roomAfter : Option Nat → Option Nat
  | some (k + 1) => some k
  | r => r

/-- The `io.Writer` handed back by `CreateHeader`. -/
inductive EntryWriter where
  | fileWriter
  | dirWriter
deriving DecidableEq

/-- `(*zip.Writer).CreateHeader` of `archive/zip`: the header is appended to
`w.dir` first, then `writeHeader` writes the local header; `writeHeader`
returns `errLongName` for a name longer than 65535 bytes (`uint16max`), and
the write error when the temporary file takes no more, in both cases leaving
the header in `w.dir`. For a name with the suffix `/` the returned writer is
the `dirWriter`, otherwise a `fileWriter`. -/
def ZipWriter.CreateHeader (w : ZipWriter) (room : Option Nat) (name : String) :
    ZipWriter × Option Nat × Except Error EntryWriter :=
  let w1 : ZipWriter := { w with dir := w.dir ++ [⟨name, []⟩] }
  if name.utf8ByteSize > 65535 then
    ({ w1 with malformed := true }, room, .error ⟨"zip: FileHeader.Name too long"⟩)
  else if !roomTakes room then
    ({ w1 with malformed := true }, room, .error ⟨"write: no space left on device"⟩)
  else if isDirName name then (w1, roomAfter room, .ok .dirWriter)
  else (w1, roomAfter room, .ok .fileWriter)

/-- Append bytes to the entry created last. -/
def appendLast : List ZipEntry → List UInt8 → List ZipEntry
  | [], _ => []
  | [e], bs => [{ e with data := e.data ++ bs }]
  | e :: es, bs => e :: appendLast es bs

/-- The bytes written by `io.Copy` into the writer of an entry: nothing is
written for no bytes; `dirWriter.Write` returns the error
`zip: write to directory` for every non-empty slice; a `fileWriter` stores the
bytes under the entry created last, or returns the write error when the
temporary file takes no more. -/
def writeBytes (w : ZipWriter) (room : Option Nat) (dst : EntryWriter) (bytes : List UInt8) :
    ZipWriter × Option Nat × Option Error :=
  if bytes = [] then (w, room, none)
  else
    match dst with
    | .dirWriter => (w, room, some ⟨"zip: write to directory"⟩)
    | .fileWriter =>
      if roomTakes room then ({ w with dir := appendLast w.dir bytes }, roomAfter room, none)
      else (w, room, some ⟨"write: no space left on device"⟩)

/-- `io.Copy(writer, file)`: a read on a directory handle fails (`EISDIR`); a
regular file is read to its end and written; a broken file is written as far
as it was read and the read error is returned, unless the write failed
first. -/
def ioCopy (w : ZipWriter) (room : Option Nat) (dst : EntryWriter) (file : Source) :
    ZipWriter × Option Nat × Option Error :=
  match file with
  | .regular bytes => writeBytes w room dst bytes
  | .broken bytes =>
    match writeBytes w room dst bytes with
    | (w1, room1, some err) => (w1, room1, some err)
    | (w1, room1, none) => (w1, room1, some ⟨"read: input/output error"⟩)
  | _ => (w, room, some ⟨"read: is a directory"⟩)

/-- The open temporary file the zip writer writes into. -/
structure TmpFile where
  name : String
  opened : Bool
  content : Content

/-- `(*os.File).Close`. -/
def TmpFile.Close (f : TmpFile) : TmpFile :=
  { f with opened := false }

/-- What `(*zip.Writer).Close` leaves in the open temporary file: all that a
writer in state `w` emits, central directory included, when the file takes
the write; a cut of it when the file takes no more. -/
def closedContent (w : ZipWriter) (room : Option Nat) : Content :=
  if roomTakes room then .zip { w with closed := true }
  else .truncated (.zip { w with closed := true })

/-- `(*zip.Writer).Close`: writes the central directory and flushes all that
was emitted into the underlying file, returning the write error when the file
takes no more; nothing reaches a file that is closed already. -/
def ZipWriter.Close (w : ZipWriter) (room : Option Nat) (f : TmpFile) :
    TmpFile × Option Error :=
  if !f.opened then (f, some ⟨"write: file already closed"⟩)
  else if roomTakes room then ({ f with content := closedContent w room }, none)
  else ({ f with content := closedContent w room }, some ⟨"write: no space left on device"⟩)

/-- Name of the file `os.CreateTemp("", "tmp-zip-*")` creates in the default
temporary directory when the random part is `r`. -/
def tmpName (r : String) : String := "/tmp/tmp-zip-" ++ r

/-- `os.CreateTemp("", "tmp-zip-*")` as the pair Go returns: the file (nil on
failure) and the error. -/
def osCreateTemp (w : World) : Option String × Option Error :=
  match w.createTemp with
  | some r => (some (tmpName r), none)
  | none => (none, some ⟨"createtemp: cannot create file"⟩)

/-- `os.Remove` on a file of the temporary directory, which this process
created. The empty path names no file. -/
def osRemove (w : World) (path : String) : World :=
  if path = "" then w else w.setTmp path none

/-- `os.ReadFile` on a file of the temporary directory. -/
def osReadFile (w : World) (path : String) : Except Error Content :=
  match w.tmp path with
  | some c => .ok c
  | none => .error ⟨"open: no such file or directory"⟩

/-- `os.WriteFile(name, data, 0644)` on a file of the output directory: open
with create and truncate, write, close. -/
def osWriteFile (w : World) (name : String) (data : Content) : World × Option Error :=
  match w.writeFault name with
  | .openFails => (w, some ⟨"open: cannot create"⟩)
  | .shortWrite => (w.setOut name (some (.truncated data)), some ⟨"write: short write"⟩)
  | .succeeds => (w.setOut name (some data), none)

/-- The worlds `os.WriteFile` passes through: after the truncating open, and
after the write. -/
def osWriteFileSteps (w : World) (name : String) (data : Content) : List World :=
  match w.writeFault name with
  | .openFails => []
  | .shortWrite => [w.setOut name (some .empty), w.setOut name (some (.truncated data))]
  | .succeeds => [w.setOut name (some .empty), w.setOut name (some data)]

/-! ## main.go 42-110, 173-190 -/

/-- `copyFile` (main.go 42-57): the world it leaves and the returned error. -/
def copyFile (w : World) (source destPath : String) : World × Option Error :=
  match osReadFile w source with
  | .error err => (w, some err)
  | .ok input =>
    match osWriteFile w destPath input with
    | (w1, some err) => (w1, some err)
    | (w1, none) => (w1, none)

/-- The worlds `copyFile` passes through, in order. -/
def copyFileSteps (w : World) (source destPath : String) : List World :=
  match osReadFile w source with
  | .error _ => []
  | .ok input => osWriteFileSteps w destPath input

/-- The path `writeFileToZip` opens (main.go 59). -/
def spath (e : zipFileName) : String := "." ++ SOURCE_DIR ++ "/" ++ e.Name

/-- The header name `writeFileToZip` sets (main.go 74). -/
def headerName (e : zipFileName) : String := ToSlash (e.Alias ++ "." ++ e.Ext)

/-- `writeFileToZip` (main.go 58-91). `file.Stat` and `zip.FileInfoHeader`
succeed on an open file. -/
def writeFileToZip (storage : String → Source) (w : ZipWriter) (room : Option Nat)
    (e : zipFileName) : ZipWriter × Option Nat × Option Error :=
  match osOpen storage (spath e) with
  | .error err => (w, room, some err)
  | .ok file =>
    match w.CreateHeader room (headerName e) with
    | (w1, room1, .error err) => (w1, room1, some err)
    | (w1, room1, .ok writer) =>
      match ioCopy w1 room1 writer file with
      | (w2, room2, some err) => (w2, room2, some err)
      | (w2, room2, none) => (w2, room2, none)

/-- The loop of `createZipArchive` (main.go 102-108): a member whose write
returns an error is logged as skipped and the loop goes on. -/
def writeAll (storage : String → Source) (w : ZipWriter) (room : Option Nat) :
    List zipFileName → ZipWriter × Option Nat
  | [] => (w, room)
  | e :: rest =>
    writeAll storage (writeFileToZip storage w room e).1 (writeFileToZip storage w room e).2.1
      rest

/-- `createZipArchive` (main.go 93-110). Line 95 calls `tmpF.Name()` before
line 96 looks at `err`; on a nil `tmpF` that call dereferences nil. The two
deferred calls run before the function returns, the one registered last
first: `zipWriter.Close()`, whose error is dropped, then `tmpF.Close()`. -/
def createZipArchive (w : World) (fnms : List zipFileName) :
    Outcome (World × String × Option Error) :=
  match osCreateTemp w with
  | (none, _) => .panic "invalid memory address or nil pointer dereference"
  | (some _, some err) => .ret (w, "", some err)
  | (some name, none) =>
    let tmpF : TmpFile := ⟨name, true, .empty⟩
    let zipWriter : ZipWriter := ⟨[], false, false⟩
    let written := writeAll w.storage zipWriter w.tmpRoom fnms
    let tmpF := (written.1.Close written.2 tmpF).1
    let tmpF := tmpF.Close
    .ret (w.setTmp tmpF.name (some tmpF.content), tmpF.name, none)

/-- The path `handleZip` publishes to (main.go 182). -/
def destFName (id : String) : String := "." ++ OUTPUT_DIR ++ "/" ++ id ++ ".zip"

/-- `handleZip` (main.go 173-190): the world it leaves and the returned
error, or a panic. The deferred `os.Remove(tmpF)` runs on both return
paths. -/
def handleZip (w : World) (id : String) (fnms : List zipFileName) :
    Outcome (World × Option Error) :=
  match createZipArchive w fnms with
  | .panic msg => .panic msg
  | .ret (w1, tmpF, some err) => .ret (osRemove w1 tmpF, some err)
  | .ret (w1, tmpF, none) =>
    match copyFile w1 tmpF (destFName id) with
    | (w2, some err) => .ret (osRemove w2 tmpF, some err)
    | (w2, none) => .ret (osRemove w2 tmpF, none)

/-- The worlds `handleZip` passes through, in order: the start, the world
after `createZipArchive`, those of `copyFile`, and the world after the
deferred `os.Remove`. -/
def handleZipSteps (w : World) (id : String) (fnms : List zipFileName) : List World :=
  match createZipArchive w fnms with
  | .panic _ => [w]
  | .ret (w1, tmpF, some _) => [w, w1, osRemove w1 tmpF]
  | .ret (w1, tmpF, none) =>
    [w, w1] ++ copyFileSteps w1 tmpF (destFName id)
      ++ [osRemove (copyFile w1 tmpF (destFName id)).1 tmpF]

/-- The archive `createZipArchive` leaves in the temporary file. -/
def builtArchive (w : World) (fnms : List zipFileName) : Content :=
  closedContent (writeAll w.storage ⟨[], false, false⟩ w.tmpRoom fnms).1
    (writeAll w.storage ⟨[], false, false⟩ w.tmpRoom fnms).2

/-- Whether the member's source is a regular file that is read to its end. -/
def resolvable (storage : String → Source) (e : zipFileName) : Bool :=
  match storage (spath e) with
  | .regular _ => true
  | _ => false

/-- The bytes of the member's source file. -/
def sourceBytes (storage : String → Source) (e : zipFileName) : List UInt8 :=
  match storage (spath e) with
  | .regular bytes => bytes
  | _ => []

/-- The entry a member is meant to get: named `alias.ext`, holding the bytes
of the source file. -/
def memberEntry (storage : String → Source) (e : zipFileName) : ZipEntry :=
  ⟨e.Alias ++ "." ++ e.Ext, sourceBytes storage e⟩

/-- A complete archive holding exactly the given entries. -/
def completeArchive (entries : List ZipEntry) : Content :=
  .zip ⟨entries, false, true⟩

/-- Whether `archive/zip` stores data under this header name: it does not end
in a slash and is at most 65535 bytes long. -/
def plainName (name : String) : Bool :=
  !isDirName name && decide (name.utf8ByteSize ≤ 65535)

/-! ## Retention sweep (main.go 111-138) -/

def minDuration : Int := -9223372036854775808

def maxDuration : Int := 9223372036854775807

/-- `Time.Sub` on wall-clock instants counted in nanoseconds: the difference,
saturated to the range of `time.Duration`. -/
def Sub (t u : Int) : Int :=
  if t - u < minDuration then minDuration
  else if maxDuration < t - u then maxDuration
  else t - u

/-- What lies at a path of the swept tree. `file` is any non-directory entry;
`removable` tells whether `os.Remove` on it succeeds. `dir` lists its children
in the order `readDirNames` returns them; `readable` tells whether that call
succeeds. `noStat` is a name on which `os.Lstat` fails. -/
inductive Node where
  | file (modTime : Int) (removable : Bool)
  | dir (modTime : Int) (readable : Bool) (children : List (String × Node))
  | noStat

/-- The fields of `os.FileInfo` the callback reads. -/
structure FileInfo where
  IsDir : Bool
  ModTime : Int

/-- What one call of the walk callback did: whether it called
`os.Remove(path)`, and the error it returned. -/
structure Visit where
  remove : Bool
  ret : Option Error

def errLstat : Error := ⟨"lstat: cannot stat"⟩

def errReadDir : Error := ⟨"open: cannot read directory"⟩

/-- `os.Remove` on the node at a path: what is left there. A file goes when
it is removable, a directory when it is empty. -/
def osRemoveNode : Node → Option Node
  | .file _ true => none
  | .dir _ _ [] => none
  | n => some n

/-- `filepath.Join(path, name)`. -/
def Join (path name : String) : String := path ++ "/" ++ name

/-- The callback `cleanOldFiles` hands to `filepath.Walk` (main.go 115-133).
`filepath.Walk` passes a nil `err` only together with an `info`. -/
def sweepFn (now olderThan : Int) (_path : String) (info : Option FileInfo)
    (err : Option Error) : Visit :=
  match err with
  | some err => ⟨false, some err⟩
  | none =>
    match info with
    | none => ⟨false, none⟩
    | some info =>
      if info.IsDir then ⟨false, none⟩
      else if Sub now info.ModTime > olderThan then ⟨true, none⟩
      else ⟨false, none⟩

/-- The node left at a path after a callback visit. -/
def applyVisit (v : Visit) (n : Node) : Option Node :=
  if v.remove then osRemoveNode n else some n

/-- The directory listing contributed by what is left at `name`. -/
def keep (name : String) : Option Node → List (String × Node)
  | none => []
  | some n => [(name, n)]

mutual
/-- The `walk` of `path/filepath` for a callback that never returns `SkipDir`
or `SkipAll`: the tree left at `path` and the error returned. -/
def walk (fn : String → Option FileInfo → Option Error → Visit) (path : String) :
    Node → Option Node × Option Error
  | .noStat =>
    let v := fn path none (some errLstat)
    (applyVisit v .noStat, v.ret)
  | .file m r =>
    let v := fn path (some ⟨false, m⟩) none
    (applyVisit v (.file m r), v.ret)
  | .dir m rd cs =>
    let err : Option Error := if rd then none else some errReadDir
    let v := fn path (some ⟨true, m⟩) err
    match applyVisit v (.dir m rd cs) with
    | none => (none, v.ret)
    | some _ =>
      if err.isSome || v.ret.isSome then (some (.dir m rd cs), v.ret)
      else
        let r := walkList fn path cs
        (some (.dir m rd r.1), r.2)
/-- The loop of `walk` over the names of a directory: it stops at the first
error a visit returns. -/
def walkList (fn : String → Option FileInfo → Option Error → Visit) (path : String) :
    List (String × Node) → List (String × Node) × Option Error
  | [] => ([], none)
  | (name, c) :: rest =>
    let r := walk fn (Join path name) c
    match r.2 with
    | some err => (keep name r.1 ++ rest, some err)
    | none =>
      let rs := walkList fn path rest
      (keep name r.1 ++ rs.1, rs.2)
end

/-- `filepath.Walk(root, fn)`; `none` is a root that does not exist. -/
def Walk (fn : String → Option FileInfo → Option Error → Visit) (root : String)
    (fs : Option Node) : Option Node × Option Error :=
  match fs with
  | none => (none, (fn root none (some errLstat)).ret)
  | some n => walk fn root n

/-- `cleanOldFiles` (main.go 111-138) with `now` the value `time.Now()`
returned at line 112: the tree it leaves at `dir`, and the walk error it
logs at line 136. -/
def cleanOldFiles (now : Int) (dir : String) (olderThan : Int) (fs : Option Node) :
    Option Node × Option Error :=
  Walk (sweepFn now olderThan) dir fs

/-- Successive runs of `cleanOldFiles`, one for each clock reading. -/
def cleanOldFilesRuns (dir : String) (olderThan : Int) :
    List Int → Option Node → Option Node
  | [], fs => fs
  | now :: nows, fs =>
    cleanOldFilesRuns dir olderThan nows (cleanOldFiles now dir olderThan fs).1

/-- What an entry of the tree is, as far as the sweep can tell. -/
inductive Kind where
  | file (modTime : Int) (removable : Bool)
  | dir (readable : Bool)
  | noStat
deriving DecidableEq

/-- An entry of the tree: its path and what lies there. -/
structure Entry where
  path : String
  kind : Kind
deriving DecidableEq

mutual
/-- Everything at and under a node, in the order `filepath.Walk` visits. -/
def entries (path : String) : Node → List Entry
  | .noStat => [⟨path, .noStat⟩]
  | .file m r => [⟨path, .file m r⟩]
  | .dir _ rd cs => ⟨path, .dir rd⟩ :: entriesList path cs
/-- Everything under the children of a directory, in walk order. -/
def entriesList (path : String) : List (String × Node) → List Entry
  | [] => []
  | (name, c) :: rest => entries (Join path name) c ++ entriesList path rest
end

/-- Everything that exists at and under `dir`, in walk order. -/
def listing (dir : String) : Option Node → List Entry
  | none => []
  | some n => entries dir n

/-- The error `filepath.Walk` reports for an entry it cannot walk. -/
def Entry.failure (e : Entry) : Option Error :=
  match e.kind with
  | .noStat => some errLstat
  | .dir false => some errReadDir
  | _ => none

/-- Whether the entry is a file whose age exceeds `olderThan`. -/
def Entry.expired (now olderThan : Int) (e : Entry) : Bool :=
  match e.kind with
  | .file m _ => decide (Sub now m > olderThan)
  | _ => false

/-- Whether the entry is a file on which `os.Remove` succeeds. -/
def Entry.removable (e : Entry) : Bool :=
  match e.kind with
  | .file _ r => r
  | _ => false

/-- The sweep read off the walk-order listing, used in the proofs: entries
are taken in order, the first one that cannot be walked ends the pass, and an
expired removable file is dropped. `walk_scan` shows that `walk` with the
callback of `cleanOldFiles` computes it. -/
def scan (now olderThan : Int) : List Entry → List Entry × Option Error
  | [] => ([], none)
  | e :: es =>
    match e.failure with
    | some err => (e :: es, some err)
    | none =>
      if e.expired now olderThan && e.removable then scan now olderThan es
      else (e :: (scan now olderThan es).1, (scan now olderThan es).2)

/-! ## Concrete worlds and trees -/

/-- A world with two regular files and a directory under the storage root,
an empty temporary directory and an empty, writable output directory. -/
def okWorld : World :=
  { storage := fun p =>
      if p = "./storage/a.txt" then .regular [1, 2]
      else if p = "./storage/b.bin" then .regular [3]
      else if p = "./storage/d" then .directory
      else .missing
    createTemp := some "1"
    tmpRoom := none
    tmp := fun _ => none
    out := fun _ => none
    writeFault := fun _ => .succeeds }

/-- The world `okWorld` with no room for a temporary file. -/
def noTempWorld : World := { okWorld with createTemp := none }

/-- The world `okWorld` with an output directory that takes no complete
write. -/
def shortWriteWorld : World := { okWorld with writeFault := fun _ => .shortWrite }

/-- The world `okWorld` with a temporary file that takes one write of the zip
writer and no more. -/
def fullTempWorld : World := { okWorld with tmpRoom := some 1 }

/-- A member naming the regular file `a.txt`, with an alias of 65536 bytes. -/
def longMember : zipFileName := ⟨"a.txt", "txt", ⟨List.replicate 65536 'a'⟩⟩

/-- An output tree with one expired file on which `os.Remove` fails, between
two expired files on which it succeeds, and an empty directory. -/
def lockedTree : Node :=
  (.dir 0 true
    [("a.zip", .file 0 true), ("b.zip", .file 0 false), ("c.zip", .file 0 true),
      ("empty", .dir 0 true [])])

/-- An output tree with an expired file on which `os.Remove` fails, then a
directory that cannot be read, then an expired removable file. -/
def lockedUnreadableTree : Node :=
  (.dir 0 true
    [("b.zip", .file 0 false), ("sub", .dir 0 false []), ("z.zip", .file 0 true)])

/-- An output tree with a directory that cannot be read, followed by an
expired file next to it. -/
def unreadableTree : Node :=
  (.dir 0 true
    [("a.zip", .file 0 true), ("sub", .dir 0 false [("x.zip", .file 0 true)]),
      ("z.zip", .file 0 true)])

/-- An output tree with files of several ages, one of them in a
subdirectory. At clock reading 100 and threshold 10, `new.zip` has age 10. -/
def agedTree : Node :=
  (.dir 0 true
    [("new.zip", .file 90 true), ("old.zip", .file 0 true),
      ("sub", .dir 0 true [("deep.zip", .file 1 true)])])

/-! # Theorems -/

/-! ## Archive build and publish -/

theorem appendLast_snoc (d : List ZipEntry) (n : String) (b0 bs : List UInt8) :
    appendLast (d ++ [⟨n, b0⟩]) bs = d ++ [⟨n, b0 ++ bs⟩] := by
  induction d with
  | nil => rfl
  | cons e es ih =>
    cases es with
    | nil => rfl
    | cons e2 es2 =>
      have h : appendLast (e :: e2 :: (es2 ++ [⟨n, b0⟩])) bs
          = e :: appendLast (e2 :: (es2 ++ [⟨n, b0⟩])) bs := rfl
      have ih2 : appendLast (e2 :: (es2 ++ [⟨n, b0⟩])) bs
          = e2 :: (es2 ++ [⟨n, b0 ++ bs⟩]) := ih
      simp only [List.cons_append, h, ih2]

theorem writeFileToZip_regular (storage : String → Source) (e : zipFileName)
    (d : List ZipEntry) (m c : Bool) (bytes : List UInt8)
    (hsrc : storage (spath e) = .regular bytes) (hname : plainName (headerName e) = true) :
    writeFileToZip storage ⟨d, m, c⟩ none e
      = (⟨d ++ [⟨headerName e, bytes⟩], m, c⟩, none, none) := by
  simp only [plainName, Bool.and_eq_true, Bool.not_eq_true', decide_eq_true_eq] at hname
  obtain ⟨hdir, hlen⟩ := hname
  have hlen2 : ¬ (headerName e).utf8ByteSize > 65535 := by omega
  by_cases hb : bytes = []
  · subst hb
    simp [writeFileToZip, osOpen, hsrc, ZipWriter.CreateHeader, hdir, hlen2, ioCopy, writeBytes,
      roomTakes, roomAfter]
  · simp [writeFileToZip, osOpen, hsrc, ZipWriter.CreateHeader, hdir, hlen2, ioCopy, writeBytes,
      roomTakes, roomAfter, hb, appendLast_snoc]

theorem writeFileToZip_open_failure (storage : String → Source) (e : zipFileName)
    (w : ZipWriter) (room : Option Nat)
    (h : storage (spath e) = .missing ∨ storage (spath e) = .denied) :
    (writeFileToZip storage w room e).1 = w ∧ (writeFileToZip storage w room e).2.2 ≠ none := by
  rcases h with h | h <;> simp [writeFileToZip, osOpen, h]

theorem writeAll_regular (storage : String → Source) (fnms : List zipFileName) :
    ∀ (d : List ZipEntry) (m c : Bool),
      (∀ e ∈ fnms, resolvable storage e = true) →
      (∀ e ∈ fnms, plainName (headerName e) = true) →
      writeAll storage ⟨d, m, c⟩ none fnms
        = (⟨d ++ fnms.map (memberEntry storage), m, c⟩, none) := by
  induction fnms with
  | nil => intro d m c _ _; simp [writeAll]
  | cons e rest ih =>
    intro d m c hres hname
    have h1 : resolvable storage e = true := hres e (List.mem_cons_self _ _)
    have h2 : plainName (headerName e) = true := hname e (List.mem_cons_self _ _)
    cases hs : storage (spath e) with
    | regular bytes =>
      have hw := writeFileToZip_regular storage e d m c bytes hs h2
      have hme : memberEntry storage e = ⟨headerName e, bytes⟩ := by
        simp [memberEntry, sourceBytes, hs, headerName, ToSlash]
      simp only [writeAll, hw]
      rw [ih _ m c (fun x hx => hres x (List.mem_cons_of_mem _ hx))
        (fun x hx => hname x (List.mem_cons_of_mem _ hx))]
      simp [hme]
    | missing => simp [resolvable, hs] at h1
    | denied => simp [resolvable, hs] at h1
    | directory => simp [resolvable, hs] at h1
    | broken bytes => simp [resolvable, hs] at h1

theorem tmpName_ne_empty (r : String) : tmpName r ≠ "" := by
  intro h
  have := congrArg String.length h
  simp only [tmpName, String.length_append] at this
  have h13 : "/tmp/tmp-zip-".length = 13 := by decide
  have h0 : "".length = 0 := by decide
  omega

theorem createZipArchive_returns (w : World) (fnms : List zipFileName) (r : String)
    (h : w.createTemp = some r) :
    createZipArchive w fnms
      = .ret (w.setTmp (tmpName r) (some (builtArchive w fnms)), tmpName r, none) := by
  cases hr : roomTakes (writeAll w.storage ⟨[], false, false⟩ w.tmpRoom fnms).2 <;>
    simp [createZipArchive, osCreateTemp, h, builtArchive, ZipWriter.Close, TmpFile.Close, hr]

theorem createZipArchive_panics (w : World) (fnms : List zipFileName)
    (h : w.createTemp = none) :
    createZipArchive w fnms = .panic "invalid memory address or nil pointer dereference" := by
  simp [createZipArchive, osCreateTemp, h]

/-- The world `handleZip` leaves when it returns, and the error, spelled out
by the way `os.WriteFile` goes. -/
theorem handleZip_returns (w : World) (id : String) (fnms : List zipFileName) (r : String)
    (h : w.createTemp = some r) :
    handleZip w id fnms =
      match w.writeFault (destFName id) with
      | .openFails =>
        .ret ((w.setTmp (tmpName r) (some (builtArchive w fnms))).setTmp (tmpName r) none,
          some ⟨"open: cannot create"⟩)
      | .shortWrite =>
        .ret (((w.setTmp (tmpName r) (some (builtArchive w fnms))).setOut (destFName id)
            (some (.truncated (builtArchive w fnms)))).setTmp (tmpName r) none,
          some ⟨"write: short write"⟩)
      | .succeeds =>
        .ret (((w.setTmp (tmpName r) (some (builtArchive w fnms))).setOut (destFName id)
            (some (builtArchive w fnms))).setTmp (tmpName r) none, none) := by
  have hne := tmpName_ne_empty r
  cases hf : w.writeFault (destFName id) <;>
    simp [handleZip, createZipArchive_returns w fnms r h, copyFile, osReadFile, osWriteFile,
      World.setTmp, World.setOut, hf, osRemove, hne]

theorem utf8Len_replicate (n : Nat) : String.utf8Len (List.replicate n 'a') = n := by
  induction n with
  | zero => rfl
  | succ k ih =>
    have h1 : Char.utf8Size 'a' = 1 := by decide
    simp [List.replicate_succ, ih, h1]

theorem utf8ByteSize_append (a b : String) :
    (a ++ b).utf8ByteSize = a.utf8ByteSize + b.utf8ByteSize := by
  cases a with
  | mk x =>
    cases b with
    | mk y =>
      show String.utf8Len (x ++ y) = String.utf8Len x + String.utf8Len y
      exact String.utf8Len_append x y

theorem headerName_size (e : zipFileName) :
    (headerName e).utf8ByteSize
      = e.Alias.utf8ByteSize + ".".utf8ByteSize + e.Ext.utf8ByteSize := by
  unfold headerName ToSlash
  rw [utf8ByteSize_append, utf8ByteSize_append]

theorem headerName_longMember : (headerName longMember).utf8ByteSize = 65540 := by
  have h0 : longMember.Alias.utf8ByteSize = 65536 := utf8Len_replicate 65536
  have h1 : ".".utf8ByteSize = 1 := by decide
  have h2 : longMember.Ext.utf8ByteSize = 3 := by decide
  rw [headerName_size, h0, h1, h2]

theorem writeFileToZip_long_name (storage : String → Source) (e : zipFileName)
    (d : List ZipEntry) (m c : Bool) (room : Option Nat) (bytes : List UInt8)
    (hsrc : storage (spath e) = .regular bytes)
    (hlen : (headerName e).utf8ByteSize > 65535) :
    writeFileToZip storage ⟨d, m, c⟩ room e
      = (⟨d ++ [⟨headerName e, []⟩], true, c⟩, room,
          some ⟨"zip: FileHeader.Name too long"⟩) := by
  simp [writeFileToZip, osOpen, hsrc, ZipWriter.CreateHeader, hlen]

theorem builtArchive_single (w : World) (e : zipFileName) :
    builtArchive w [e]
      = closedContent (writeFileToZip w.storage ⟨[], false, false⟩ w.tmpRoom e).1
          (writeFileToZip w.storage ⟨[], false, false⟩ w.tmpRoom e).2.1 := by
  simp [builtArchive, writeAll]

theorem builtArchive_longMember :
    builtArchive okWorld [longMember] = .zip ⟨[⟨headerName longMember, []⟩], true, true⟩ := by
  have hs : okWorld.storage (spath longMember) = .regular [1, 2] := by decide
  have hl : (headerName longMember).utf8ByteSize > 65535 := by
    rw [headerName_longMember]; decide
  rw [builtArchive_single, writeFileToZip_long_name okWorld.storage longMember [] false false
    okWorld.tmpRoom [1, 2] hs hl]
  rfl

theorem handleZip_longMember :
    handleZip okWorld "job" [longMember]
      = .ret (((okWorld.setTmp (tmpName "1") (some (builtArchive okWorld [longMember]))).setOut
          (destFName "job") (some (builtArchive okWorld [longMember]))).setTmp
            (tmpName "1") none, none) := by
  have hz := handleZip_returns okWorld "job" [longMember] "1" rfl
  have hf : okWorld.writeFault (destFName "job") = .succeeds := rfl
  simp only [hf] at hz
  exact hz

/-- C1, as amended. When every member names a regular file that is read to its
end, every header name `alias.ext` is one `archive/zip` stores data under (no
trailing slash, at most 65535 bytes), the temporary file takes every write of
the zip writer, and `handleZip` returns without error, the file at
`./output/<id>.zip` is a complete archive with one entry per member, in
request order, the i-th named `alias.ext` of the i-th member and holding the
bytes of its source file. -/
theorem handleZip_publishes_members (w w1 : World) (id : String) (fnms : List zipFileName)
    (hres : ∀ e ∈ fnms, resolvable w.storage e = true)
    (hname : ∀ e ∈ fnms, plainName (e.Alias ++ "." ++ e.Ext) = true)
    (hroom : w.tmpRoom = none)
    (hret : handleZip w id fnms = .ret (w1, none)) :
    w1.out (destFName id) = some (completeArchive (fnms.map (memberEntry w.storage))) := by
  have hbuilt : builtArchive w fnms = completeArchive (fnms.map (memberEntry w.storage)) := by
    simp [builtArchive, completeArchive, hroom, closedContent, roomTakes,
      writeAll_regular w.storage fnms [] false false hres hname]
  cases hc : w.createTemp with
  | none =>
    simp [handleZip, createZipArchive_panics w fnms hc] at hret
  | some r =>
    rw [handleZip_returns w id fnms r hc] at hret
    cases hf : w.writeFault (destFName id) <;> simp only [hf] at hret
    · injection hret with h1
      injection h1 with h2 h3
      subst h2
      simp [World.setTmp, World.setOut, hbuilt]
    · injection hret with h1
      injection h1 with h2 h3
      simp at h3
    · injection hret with h1
      injection h1 with h2 h3
      simp at h3

/-- Witness for C1 as amended: two members, both regular files. -/
theorem handleZip_publishes_members_witness :
    ∃ w1, handleZip okWorld "job" [⟨"a.txt", "txt", "x"⟩, ⟨"b.bin", "bin", "y"⟩] = .ret (w1, none) ∧
      w1.out (destFName "job")
        = some (completeArchive [⟨"x.txt", [1, 2]⟩, ⟨"y.bin", [3]⟩]) :=
  ⟨_, rfl, handleZip_publishes_members okWorld _ "job"
    [⟨"a.txt", "txt", "x"⟩, ⟨"b.bin", "bin", "y"⟩] (by decide) (by decide) rfl rfl⟩

/-- C1, as stated, fails, in three ways. The member `a.txt` is a readable
regular file holding two bytes. With the extension `d/`, `handleZip` returns
without error and the published archive has the entry `x.d/` with no content.
With an alias of 65536 bytes, `handleZip` returns without error and what it
published is not the complete archive with the member's entry. And when the
temporary file takes the header of `x.txt` and no more, the failed copy is
logged as a skipped member, the error of `zipWriter.Close()` is dropped,
`handleZip` returns without error and what it published is a cut-off
archive. -/
theorem handleZip_directory_name_drops_content :
    (resolvable okWorld.storage ⟨"a.txt", "d/", "x"⟩ = true ∧
      memberEntry okWorld.storage ⟨"a.txt", "d/", "x"⟩ = ⟨"x.d/", [1, 2]⟩ ∧
      ∃ w1, handleZip okWorld "job" [⟨"a.txt", "d/", "x"⟩] = .ret (w1, none) ∧
        w1.out (destFName "job") = some (completeArchive [⟨"x.d/", []⟩]) ∧
        w1.out (destFName "job")
          ≠ some (completeArchive
              ([⟨"a.txt", "d/", "x"⟩].map (memberEntry okWorld.storage)))) ∧
    (resolvable okWorld.storage longMember = true ∧
      ∃ w1, handleZip okWorld "job" [longMember] = .ret (w1, none) ∧
        w1.out (destFName "job")
          ≠ some (completeArchive ([longMember].map (memberEntry okWorld.storage)))) ∧
    (resolvable fullTempWorld.storage ⟨"a.txt", "txt", "x"⟩ = true ∧
      plainName "x.txt" = true ∧
      (writeFileToZip fullTempWorld.storage ⟨[], false, false⟩ fullTempWorld.tmpRoom
          ⟨"a.txt", "txt", "x"⟩).2.2 = some ⟨"write: no space left on device"⟩ ∧
      ∃ w1, handleZip fullTempWorld "job" [⟨"a.txt", "txt", "x"⟩] = .ret (w1, none) ∧
        w1.out (destFName "job")
          = some (.truncated (.zip ⟨[⟨"x.txt", []⟩], false, true⟩)) ∧
        w1.out (destFName "job")
          ≠ some (completeArchive
              ([⟨"a.txt", "txt", "x"⟩].map (memberEntry fullTempWorld.storage)))) := by
  refine ⟨⟨by decide, by decide, _, rfl, by decide, by decide⟩,
    ⟨by decide, _, handleZip_longMember, ?_⟩,
    ⟨by decide, by decide, by decide, _, rfl, by decide, by decide⟩⟩
  simp [World.setTmp, World.setOut, builtArchive_longMember, completeArchive]

/-- C2 at the failing input: the only member names a directory under the
storage root; `writeFileToZip` returns an error, so the member is logged as
skipped, `createZipArchive` returns no error, and the archive it built has an
entry `a.txt` for that member. A member whose source is missing leaves no
entry. -/
theorem createZipArchive_directory_member_leaves_entry :
    resolvable okWorld.storage ⟨"d", "txt", "a"⟩ = false ∧
    (writeFileToZip okWorld.storage ⟨[], false, false⟩ okWorld.tmpRoom ⟨"d", "txt", "a"⟩).2.2
      = some ⟨"read: is a directory"⟩ ∧
    (∃ w1, createZipArchive okWorld [⟨"d", "txt", "a"⟩] = .ret (w1, tmpName "1", none) ∧
      w1.tmp (tmpName "1") = some (completeArchive [⟨"a.txt", []⟩])) ∧
    (∃ w1, createZipArchive okWorld [⟨"nope", "txt", "n"⟩] = .ret (w1, tmpName "1", none) ∧
      w1.tmp (tmpName "1") = some (completeArchive [])) :=
  ⟨by decide, by decide, ⟨_, rfl, by decide⟩, ⟨_, rfl, by decide⟩⟩

/-- C6. Whenever `handleZip` returns, with or without error, the temporary
file `createZipArchive` made for the job is gone, and no file of the temporary
directory exists that did not exist before the job. -/
theorem handleZip_removes_temporary_artifact (w w1 : World) (id : String)
    (fnms : List zipFileName) (err : Option Error)
    (hret : handleZip w id fnms = .ret (w1, err)) :
    (∀ r, w.createTemp = some r → w1.tmp (tmpName r) = none) ∧
    (∀ p, w.tmp p = none → w1.tmp p = none) := by
  cases hc : w.createTemp with
  | none =>
    simp [handleZip, createZipArchive_panics w fnms hc] at hret
  | some r =>
    rw [handleZip_returns w id fnms r hc] at hret
    cases hf : w.writeFault (destFName id) <;> simp only [hf] at hret <;>
    · injection hret with h1
      injection h1 with h2 h3
      subst h2
      refine ⟨?_, ?_⟩
      · intro r2 hr2
        cases hr2
        simp [World.setTmp, World.setOut]
      · intro p hp
        by_cases hpe : p = tmpName r <;> simp [World.setTmp, World.setOut, hpe, hp]

/-- Witness for C6 on the publish-failure path: the write to the output
directory stops early, `handleZip` returns the error, the temporary file is
gone. -/
theorem handleZip_removes_temporary_artifact_witness :
    ∃ w1, handleZip shortWriteWorld "job" [⟨"a.txt", "txt", "x"⟩]
        = .ret (w1, some ⟨"write: short write"⟩) ∧
      w1.tmp (tmpName "1") = none :=
  ⟨_, rfl, (handleZip_removes_temporary_artifact shortWriteWorld _ "job"
    [⟨"a.txt", "txt", "x"⟩] _ rfl).1 "1" rfl⟩

/-- C7 at the failing input: `os.CreateTemp` fails; `createZipArchive` does
not return an error, it panics at `tmpF.Name()`, and so does `handleZip`. -/
theorem createZipArchive_createTemp_failure_panics :
    osCreateTemp noTempWorld = (none, some ⟨"createtemp: cannot create file"⟩) ∧
    createZipArchive noTempWorld []
      = .panic "invalid memory address or nil pointer dereference" ∧
    handleZip noTempWorld "job" []
      = .panic "invalid memory address or nil pointer dereference" :=
  ⟨rfl, rfl, rfl⟩

/-- C10, as amended. `handleZip` publishes with one `os.WriteFile` on the
destination path itself; there is no temporary name in the output directory
and no rename. In every world it passes through, every other path of the
output directory is as it was at the start, and the destination holds what it
held at the start, an empty file, a cut-off copy of the archive the build
left in the temporary file, or the whole of it. The last world is the one
`handleZip` returns; when it returns without error the destination holds the
whole of what the build left in the temporary file. -/
theorem handleZip_publishes_in_place (w : World) (id : String) (fnms : List zipFileName) :
    (∀ s ∈ handleZipSteps w id fnms,
      (∀ p, p ≠ destFName id → s.out p = w.out p) ∧
      (s.out (destFName id) = w.out (destFName id) ∨
        s.out (destFName id) = some .empty ∨
        s.out (destFName id) = some (.truncated (builtArchive w fnms)) ∨
        s.out (destFName id) = some (builtArchive w fnms))) ∧
    (∀ w1 err, handleZip w id fnms = .ret (w1, err) →
      (handleZipSteps w id fnms).getLast? = some w1) ∧
    (∀ w1, handleZip w id fnms = .ret (w1, none) →
      w1.out (destFName id) = some (builtArchive w fnms)) := by
  cases hc : w.createTemp with
  | none =>
    have hp := createZipArchive_panics w fnms hc
    refine ⟨?_, ?_, ?_⟩
    · intro s hs
      simp [handleZipSteps, hp] at hs
      subst hs
      simp
    · intro w1 err h
      simp [handleZip, hp] at h
    · intro w1 h
      simp [handleZip, hp] at h
  | some r =>
    have hz := handleZip_returns w id fnms r hc
    have hcz := createZipArchive_returns w fnms r hc
    have hne := tmpName_ne_empty r
    cases hf : w.writeFault (destFName id) <;> simp only [hf] at hz <;>
    · refine ⟨?_, ?_, ?_⟩
      · intro s hs
        simp [handleZipSteps, hcz, copyFileSteps, copyFile, osReadFile, osWriteFile,
          osWriteFileSteps, World.setTmp, World.setOut, hf, osRemove, hne] at hs
        rcases hs with rfl | rfl | rfl | rfl | rfl <;>
          simp +contextual [World.setOut]
      · intro w1 err h
        rw [hz] at h
        injection h with h1
        injection h1 with h2 h3
        subst h2
        simp [handleZipSteps, hcz, copyFileSteps, copyFile, osReadFile, osWriteFile,
          osWriteFileSteps, World.setTmp, World.setOut, hf, osRemove, hne,
          List.getLast?_append, List.getLast?_cons_cons]
      · intro w1 h
        rw [hz] at h
        injection h with h1
        injection h1 with h2 h3
        first
          | (simp at h3; done)
          | (subst h2; simp [World.setTmp, World.setOut])

/-- C10, as stated, fails. While `handleZip` publishes the archive of an
empty member list, the third world it passes through, right after the
truncating open of `os.WriteFile`, has the destination path existing and not
holding the archive that was built: it holds an empty file. And when the write stops
early, `handleZip` returns the error and leaves the cut-off copy at the
destination path. -/
theorem handleZip_exposes_empty_destination :
    (∃ s, (handleZipSteps okWorld "job" [])[2]? = some s ∧
      s.out (destFName "job") = some .empty ∧
      s.out (destFName "job") ≠ none ∧
      s.out (destFName "job") ≠ some (builtArchive okWorld [])) ∧
    (∃ w1, handleZip shortWriteWorld "job" [] = .ret (w1, some ⟨"write: short write"⟩) ∧
      w1.out (destFName "job") = some (.truncated (builtArchive shortWriteWorld []))) :=
  ⟨⟨_, rfl, by decide, by decide, by decide⟩, ⟨_, rfl, by decide⟩⟩

/-! ## Retention sweep -/

theorem scan_append (now olderThan : Int) (xs ys : List Entry) :
    scan now olderThan (xs ++ ys) =
      match (scan now olderThan xs).2 with
      | some err => ((scan now olderThan xs).1 ++ ys, some err)
      | none =>
        ((scan now olderThan xs).1 ++ (scan now olderThan ys).1, (scan now olderThan ys).2) := by
  induction xs with
  | nil => simp [scan]
  | cons e es ih =>
    cases hf : e.failure with
    | some err => simp [scan, hf]
    | none =>
      by_cases hd : (e.expired now olderThan && e.removable) = true
      · simp [scan, hf, hd, ih]
      · cases hs : (scan now olderThan es).2 <;> rw [hs] at ih <;>
          simp [scan, hf, hd, ih, hs]

theorem entriesList_append (path : String) (xs ys : List (String × Node)) :
    entriesList path (xs ++ ys) = entriesList path xs ++ entriesList path ys := by
  induction xs with
  | nil => simp [entriesList]
  | cons x xs ih =>
    obtain ⟨name, c⟩ := x
    simp [entriesList, ih]

theorem entriesList_keep (path name : String) (o : Option Node) :
    entriesList path (keep name o) = listing (Join path name) o := by
  cases o <;> simp [keep, entriesList, listing]

mutual
theorem walk_scan (now olderThan : Int) (path : String) : ∀ n : Node,
    (listing path (walk (sweepFn now olderThan) path n).1,
      (walk (sweepFn now olderThan) path n).2) = scan now olderThan (entries path n)
  | .noStat => by
    simp [walk, sweepFn, applyVisit, listing, entries, scan, Entry.failure]
  | .file m r => by
    by_cases h : Sub now m > olderThan <;> cases r <;>
      simp [walk, sweepFn, applyVisit, osRemoveNode, listing, entries, scan, Entry.failure,
        Entry.expired, Entry.removable, h]
  | .dir m rd cs => by
    have ih := walkList_scan now olderThan path cs
    cases rd with
    | false =>
      simp [walk, sweepFn, applyVisit, listing, entries, scan, Entry.failure]
    | true =>
      have h1 := congrArg Prod.fst ih
      have h2 := congrArg Prod.snd ih
      simp only at h1 h2
      simp [walk, sweepFn, applyVisit, listing, entries, scan, Entry.failure, Entry.expired,
        Entry.removable, h1, h2]
theorem walkList_scan (now olderThan : Int) (path : String) : ∀ cs : List (String × Node),
    (entriesList path (walkList (sweepFn now olderThan) path cs).1,
      (walkList (sweepFn now olderThan) path cs).2) = scan now olderThan (entriesList path cs)
  | [] => by simp [walkList, entriesList, scan]
  | (name, c) :: rest => by
    have ih1 := walk_scan now olderThan (Join path name) c
    have ih2 := walkList_scan now olderThan path rest
    have a1 := congrArg Prod.fst ih1
    have a2 := congrArg Prod.snd ih1
    have b1 := congrArg Prod.fst ih2
    have b2 := congrArg Prod.snd ih2
    simp only at a1 a2 b1 b2
    rw [entriesList, scan_append, ← a2, ← a1, ← b1, ← b2]
    cases hw : (walk (sweepFn now olderThan) (Join path name) c).2 with
    | some err => simp [walkList, hw, entriesList_append, entriesList_keep]
    | none => simp [walkList, hw, entriesList_append, entriesList_keep]
end

theorem cleanOldFiles_listing (now : Int) (dir : String) (olderThan : Int) (fs : Option Node) :
    listing dir (cleanOldFiles now dir olderThan fs).1
      = (scan now olderThan (listing dir fs)).1 := by
  cases fs with
  | none => simp [cleanOldFiles, Walk, listing, scan]
  | some n =>
    have h := congrArg Prod.fst (walk_scan now olderThan dir n)
    simpa [cleanOldFiles, Walk, listing] using h

theorem cleanOldFiles_error (now : Int) (dir : String) (olderThan : Int) (n : Node) :
    (cleanOldFiles now dir olderThan (some n)).2
      = (scan now olderThan (listing dir (some n))).2 := by
  have h := congrArg Prod.snd (walk_scan now olderThan dir n)
  simpa [cleanOldFiles, Walk, listing] using h

theorem scan_mem_or (now olderThan : Int) (es : List Entry) (e : Entry) (h : e ∈ es) :
    e ∈ (scan now olderThan es).1 ∨ (e.expired now olderThan && e.removable) = true := by
  induction es with
  | nil => simp at h
  | cons x xs ih =>
    cases hf : x.failure with
    | some err => left; simpa [scan, hf] using h
    | none =>
      by_cases hd : (x.expired now olderThan && x.removable) = true
      · rcases List.mem_cons.1 h with rfl | h2
        · right; exact hd
        · rcases ih h2 with h3 | h3
          · left; simpa [scan, hf, hd] using h3
          · right; exact h3
      · rcases List.mem_cons.1 h with rfl | h2
        · left; simp [scan, hf, hd]
        · rcases ih h2 with h3 | h3
          · left; simp [scan, hf, hd, h3]
          · right; exact h3

theorem scan_no_error (now olderThan : Int) (es : List Entry)
    (h : (scan now olderThan es).2 = none) :
    (scan now olderThan es).1
      = es.filter (fun x => !(x.expired now olderThan && x.removable)) := by
  induction es with
  | nil => simp [scan]
  | cons x xs ih =>
    cases hf : x.failure with
    | some err => simp [scan, hf] at h
    | none =>
      by_cases hd : (x.expired now olderThan && x.removable) = true
      · simp only [scan, hf, hd, if_true] at h ⊢
        rw [ih h]
        simp [List.filter, hd]
      · simp only [scan, hf, hd] at h ⊢
        simp only [Bool.false_eq_true, if_false] at h ⊢
        rw [ih h]
        simp [List.filter, hd]

theorem scan_stops (now olderThan : Int) (pre post : List Entry) (b : Entry) (err : Error)
    (hpre : ∀ x ∈ pre, x.failure = none) (hb : b.failure = some err) :
    scan now olderThan (pre ++ b :: post)
      = (pre.filter (fun x => !(x.expired now olderThan && x.removable)) ++ b :: post,
          some err) := by
  induction pre with
  | nil => simp [scan, hb]
  | cons x xs ih =>
    have hx : x.failure = none := hpre x (List.mem_cons_self _ _)
    have ih2 := ih (fun y hy => hpre y (List.mem_cons_of_mem _ hy))
    by_cases hd : (x.expired now olderThan && x.removable) = true
    · simp [scan, hx, hd, ih2, List.filter]
    · simp [scan, hx, hd, ih2, List.filter]

theorem scan_all_walkable (now olderThan : Int) (es : List Entry)
    (h : ∀ x ∈ es, x.failure = none) : (scan now olderThan es).2 = none := by
  induction es with
  | nil => simp [scan]
  | cons x xs ih =>
    have hx : x.failure = none := h x (List.mem_cons_self _ _)
    have ih2 := ih (fun y hy => h y (List.mem_cons_of_mem _ hy))
    by_cases hd : (x.expired now olderThan && x.removable) = true <;> simp [scan, hx, hd, ih2]

theorem scan_error_cause (now olderThan : Int) (es : List Entry) (err : Error)
    (h : (scan now olderThan es).2 = some err) : ∃ e ∈ es, e.failure = some err := by
  induction es with
  | nil => simp [scan] at h
  | cons x xs ih =>
    cases hf : x.failure with
    | some e2 =>
      simp only [scan, hf] at h
      injection h with h2
      subst h2
      exact ⟨x, List.mem_cons_self _ _, hf⟩
    | none =>
      by_cases hd : (x.expired now olderThan && x.removable) = true
      · simp only [scan, hf, hd, if_true] at h
        obtain ⟨e, he, hfe⟩ := ih h
        exact ⟨e, List.mem_cons_of_mem _ he, hfe⟩
      · simp only [scan, hf, hd] at h
        simp only [Bool.false_eq_true, if_false] at h
        obtain ⟨e, he, hfe⟩ := ih h
        exact ⟨e, List.mem_cons_of_mem _ he, hfe⟩

theorem scan_again (now1 now2 olderThan : Int) (es : List Entry)
    (h : ∀ e ∈ es, (e.expired now2 olderThan && e.removable) = true →
      (e.expired now1 olderThan && e.removable) = true) :
    scan now2 olderThan (scan now1 olderThan es).1 = scan now1 olderThan es := by
  induction es with
  | nil => simp [scan]
  | cons x xs ih =>
    have ih2 := ih (fun y hy => h y (List.mem_cons_of_mem _ hy))
    cases hf : x.failure with
    | some err => simp [scan, hf]
    | none =>
      by_cases hd : (x.expired now1 olderThan && x.removable) = true
      · simpa [scan, hf, hd] using ih2
      · have hd2 : ¬ (x.expired now2 olderThan && x.removable) = true :=
          fun h2 => hd (h x (List.mem_cons_self _ _) h2)
        simp [scan, hf, hd, hd2, ih2]

theorem runs_mem_or (dir : String) (olderThan : Int) (nows : List Int) :
    ∀ (fs : Option Node) (e : Entry), e ∈ listing dir fs →
      e ∈ listing dir (cleanOldFilesRuns dir olderThan nows fs) ∨
        ∃ now ∈ nows, (e.expired now olderThan && e.removable) = true := by
  induction nows with
  | nil => intro fs e h; left; simpa [cleanOldFilesRuns] using h
  | cons now rest ih =>
    intro fs e h
    rcases scan_mem_or now olderThan (listing dir fs) e h with h1 | h1
    · rw [← cleanOldFiles_listing] at h1
      rcases ih _ e h1 with h2 | ⟨t, ht, h2⟩
      · left; simpa [cleanOldFilesRuns] using h2
      · right; exact ⟨t, List.mem_cons_of_mem _ ht, h2⟩
    · right; exact ⟨now, List.mem_cons_self _ _, h1⟩

/-- C3. After any number of runs of `cleanOldFiles` on a tree, at any clock
readings: whatever is gone was a non-directory file whose age exceeded
`olderThan` at one of the runs; every file whose age was strictly less than
`olderThan` at each run is still there; every directory, an empty one
included, is still there. -/
theorem cleanOldFiles_removes_only_expired_files (nows : List Int) (dir : String)
    (olderThan : Int) (fs : Option Node) :
    (∀ e ∈ listing dir fs, e ∉ listing dir (cleanOldFilesRuns dir olderThan nows fs) →
      ∃ m r, e.kind = .file m r ∧ ∃ now ∈ nows, Sub now m > olderThan) ∧
    (∀ p m r, ⟨p, .file m r⟩ ∈ listing dir fs → (∀ now ∈ nows, Sub now m < olderThan) →
      ⟨p, .file m r⟩ ∈ listing dir (cleanOldFilesRuns dir olderThan nows fs)) ∧
    (∀ p rd, ⟨p, .dir rd⟩ ∈ listing dir fs →
      ⟨p, .dir rd⟩ ∈ listing dir (cleanOldFilesRuns dir olderThan nows fs)) := by
  refine ⟨?_, ?_, ?_⟩
  · intro e he hgone
    rcases runs_mem_or dir olderThan nows fs e he with h | ⟨now, hnow, h⟩
    · exact absurd h hgone
    · obtain ⟨p, k⟩ := e
      cases k with
      | file m r =>
        refine ⟨m, r, rfl, now, hnow, ?_⟩
        simp only [Entry.expired, Entry.removable, Bool.and_eq_true, decide_eq_true_eq] at h
        exact h.1
      | dir rd => simp [Entry.expired] at h
      | noStat => simp [Entry.expired] at h
  · intro p m r he hyoung
    rcases runs_mem_or dir olderThan nows fs _ he with h | ⟨now, hnow, h⟩
    · exact h
    · simp only [Entry.expired, Entry.removable, Bool.and_eq_true, decide_eq_true_eq] at h
      have h1 : Sub now m > olderThan := h.1
      have h2 := hyoung now hnow
      omega
  · intro p rd he
    rcases runs_mem_or dir olderThan nows fs _ he with h | ⟨now, _, h⟩
    · exact h
    · simp [Entry.expired] at h

/-- C4, as amended. A file under the swept root, at any depth, whose age is
strictly greater than `olderThan` is gone after one run of `cleanOldFiles`,
provided `os.Remove` succeeds on it and the walk ends without error. -/
theorem cleanOldFiles_deletes_expired (now : Int) (dir : String) (olderThan : Int)
    (fs : Option Node) (p : String) (m : Int)
    (hmem : ⟨p, .file m true⟩ ∈ listing dir fs)
    (hage : Sub now m > olderThan)
    (hwalk : (cleanOldFiles now dir olderThan fs).2 = none) :
    ⟨p, .file m true⟩ ∉ listing dir (cleanOldFiles now dir olderThan fs).1 := by
  cases fs with
  | none => simp [listing] at hmem
  | some n =>
    rw [cleanOldFiles_error] at hwalk
    rw [cleanOldFiles_listing, scan_no_error now olderThan _ hwalk]
    simp [List.mem_filter, Entry.expired, Entry.removable, hage]

/-- Witness for C4 as amended: the file `sub/deep.zip`, one level down, aged
99 against a threshold of 10. -/
theorem cleanOldFiles_deletes_expired_witness :
    (⟨"/app/output/sub/deep.zip", .file 1 true⟩ : Entry) ∈ listing "/app/output" (some agedTree) ∧
    (⟨"/app/output/sub/deep.zip", .file 1 true⟩ : Entry)
      ∉ listing "/app/output" (cleanOldFiles 100 "/app/output" 10 (some agedTree)).1 :=
  ⟨by decide, cleanOldFiles_deletes_expired 100 "/app/output" 10 (some agedTree)
    "/app/output/sub/deep.zip" 1 (by decide) (by decide) (by decide)⟩

/-- C4, as stated, fails, in two ways. `b.zip` has age 100 against a threshold
of 10 and `os.Remove` fails on it; after one run, which ends without a walk
error, it is still there. And `z.zip`, of the same age and removable, comes
after a directory that cannot be read; after one run it is still there. -/
theorem cleanOldFiles_keeps_unremovable_expired :
    ((⟨"/app/output/b.zip", .file 0 false⟩ : Entry) ∈ listing "/app/output" (some lockedTree) ∧
      Sub 100 0 > 10 ∧
      (cleanOldFiles 100 "/app/output" 10 (some lockedTree)).2 = none ∧
      (⟨"/app/output/b.zip", .file 0 false⟩ : Entry)
        ∈ listing "/app/output" (cleanOldFiles 100 "/app/output" 10 (some lockedTree)).1) ∧
    ((⟨"/app/output/z.zip", .file 0 true⟩ : Entry)
        ∈ listing "/app/output" (some unreadableTree) ∧
      (⟨"/app/output/z.zip", .file 0 true⟩ : Entry)
        ∈ listing "/app/output" (cleanOldFiles 100 "/app/output" 10 (some unreadableTree)).1) := by
  decide

/-- C5, as amended. When no file's age crosses the threshold between the two
clock readings (in particular when both runs read the same clock value), a
second run of `cleanOldFiles` right after the first leaves exactly what the
first left, and logs the same walk error or none. -/
theorem cleanOldFiles_second_run_deletes_nothing (now1 now2 : Int) (dir : String)
    (olderThan : Int) (n : Node)
    (hsame : ∀ p m r, ⟨p, .file m r⟩ ∈ listing dir (some n) →
      Sub now2 m > olderThan → Sub now1 m > olderThan) :
    listing dir (cleanOldFiles now2 dir olderThan (cleanOldFiles now1 dir olderThan (some n)).1).1
      = listing dir (cleanOldFiles now1 dir olderThan (some n)).1 ∧
    ∀ n1, (cleanOldFiles now1 dir olderThan (some n)).1 = some n1 →
      (cleanOldFiles now2 dir olderThan (some n1)).2
        = (cleanOldFiles now1 dir olderThan (some n)).2 := by
  have hs : ∀ e ∈ listing dir (some n), (e.expired now2 olderThan && e.removable) = true →
      (e.expired now1 olderThan && e.removable) = true := by
    intro e he h
    obtain ⟨p, k⟩ := e
    cases k with
    | file m r =>
      simp only [Entry.expired, Entry.removable, Bool.and_eq_true, decide_eq_true_eq] at h ⊢
      exact ⟨hsame p m r he h.1, h.2⟩
    | dir rd => simp [Entry.expired] at h
    | noStat => simp [Entry.expired] at h
  have key := scan_again now1 now2 olderThan (listing dir (some n)) hs
  refine ⟨?_, ?_⟩
  · rw [cleanOldFiles_listing now2, cleanOldFiles_listing now1, key]
  · intro n1 hn1
    have h1 : listing dir (some n1) = (scan now1 olderThan (listing dir (some n))).1 := by
      rw [← hn1, cleanOldFiles_listing]
    rw [cleanOldFiles_error, cleanOldFiles_error, h1, key]

/-- Witness for C5 as amended: two runs at the same clock reading. -/
theorem cleanOldFiles_second_run_deletes_nothing_witness :
    listing "/app/output"
        (cleanOldFiles 100 "/app/output" 10 (cleanOldFiles 100 "/app/output" 10 (some agedTree)).1).1
      = listing "/app/output" (cleanOldFiles 100 "/app/output" 10 (some agedTree)).1 :=
  (cleanOldFiles_second_run_deletes_nothing 100 100 "/app/output" 10 agedTree
    (fun _ _ _ _ h => h)).1

/-- C5, as stated, fails: `new.zip`, modified at 90 with a threshold of 10,
survives the run that reads the clock at 100 (age 10, not above the
threshold) and is deleted by the run that follows and reads it at 101; no
file was created in between. -/
theorem cleanOldFiles_later_run_deletes_more :
    (⟨"/app/output/new.zip", .file 90 true⟩ : Entry)
      ∈ listing "/app/output" (cleanOldFiles 100 "/app/output" 10 (some agedTree)).1 ∧
    (⟨"/app/output/new.zip", .file 90 true⟩ : Entry)
      ∉ listing "/app/output"
        (cleanOldFiles 101 "/app/output" 10 (cleanOldFiles 100 "/app/output" 10 (some agedTree)).1).1 ∧
    listing "/app/output"
        (cleanOldFiles 101 "/app/output" 10 (cleanOldFiles 100 "/app/output" 10 (some agedTree)).1).1
      ≠ listing "/app/output" (cleanOldFiles 100 "/app/output" 10 (some agedTree)).1 := by
  decide

/-- C8, as amended. A failure to read a directory or to stat an entry ends
the sweep: the callback returns the error, `filepath.Walk` stops and
`cleanOldFiles` logs it. What was visited before the failing entry is swept as
usual; the failing entry and everything after it in walk order, inside or
outside the failing subtree, expired or not, is left in place. -/
theorem cleanOldFiles_walk_failure_stops_sweep (now : Int) (dir : String) (olderThan : Int)
    (fs : Option Node) (pre post : List Entry) (b : Entry) (err : Error)
    (hlist : listing dir fs = pre ++ b :: post)
    (hpre : ∀ x ∈ pre, x.failure = none)
    (hb : b.failure = some err) :
    (cleanOldFiles now dir olderThan fs).2 = some err ∧
    listing dir (cleanOldFiles now dir olderThan fs).1
      = pre.filter (fun x => !(x.expired now olderThan && x.removable)) ++ b :: post := by
  cases fs with
  | none => simp [listing] at hlist
  | some n =>
    rw [cleanOldFiles_error, cleanOldFiles_listing, hlist,
      scan_stops now olderThan pre post b err hpre hb]
    exact ⟨rfl, rfl⟩

/-- Witness for C8 as amended: the directory `sub` cannot be read; `a.zip`
before it is deleted, `sub/x.zip` and `z.zip` after it stay. -/
theorem cleanOldFiles_walk_failure_stops_sweep_witness :
    (cleanOldFiles 100 "/app/output" 10 (some unreadableTree)).2 = some errReadDir ∧
    listing "/app/output" (cleanOldFiles 100 "/app/output" 10 (some unreadableTree)).1
      = [⟨"/app/output", .dir true⟩, ⟨"/app/output/sub", .dir false⟩,
          ⟨"/app/output/sub/x.zip", .file 0 true⟩, ⟨"/app/output/z.zip", .file 0 true⟩] :=
  cleanOldFiles_walk_failure_stops_sweep 100 "/app/output" 10 (some unreadableTree)
    [⟨"/app/output", .dir true⟩, ⟨"/app/output/a.zip", .file 0 true⟩]
    [⟨"/app/output/sub/x.zip", .file 0 true⟩, ⟨"/app/output/z.zip", .file 0 true⟩]
    ⟨"/app/output/sub", .dir false⟩ errReadDir (by decide) (by decide) (by decide)

/-- C8, as stated, fails: the directory `sub` cannot be read; `z.zip` lies
outside it, is visited after it, has age 100 against a threshold of 10 and is
removable; after the sweep it is still there. -/
theorem cleanOldFiles_walk_failure_skips_later_files :
    (cleanOldFiles 100 "/app/output" 10 (some unreadableTree)).2 = some errReadDir ∧
    Sub 100 0 > 10 ∧
    (⟨"/app/output/z.zip", .file 0 true⟩ : Entry) ∈ listing "/app/output" (some unreadableTree) ∧
    (⟨"/app/output/z.zip", .file 0 true⟩ : Entry)
      ∈ listing "/app/output" (cleanOldFiles 100 "/app/output" 10 (some unreadableTree)).1 := by
  decide

/-- C9, as amended. A failed removal does not abort the sweep: in every tree,
a walk error comes back only for an entry that cannot be walked, never for a
removal that failed. And in every tree, however many removals fail, when the
walk ends without error every expired file on which `os.Remove` succeeds is
gone, wherever it lies relative to the files whose removal failed, and
everything else is still there. -/
theorem cleanOldFiles_remove_failure_does_not_abort (now : Int) (dir : String)
    (olderThan : Int) (n : Node) :
    (∀ err, (cleanOldFiles now dir olderThan (some n)).2 = some err →
      ∃ e ∈ listing dir (some n), e.failure = some err) ∧
    ((cleanOldFiles now dir olderThan (some n)).2 = none →
      (∀ p m, ⟨p, .file m true⟩ ∈ listing dir (some n) → Sub now m > olderThan →
        ⟨p, .file m true⟩ ∉ listing dir (cleanOldFiles now dir olderThan (some n)).1) ∧
      (∀ e ∈ listing dir (some n), (e.expired now olderThan && e.removable) = false →
        e ∈ listing dir (cleanOldFiles now dir olderThan (some n)).1) ∧
      listing dir (cleanOldFiles now dir olderThan (some n)).1
        = (listing dir (some n)).filter
            (fun x => !(x.expired now olderThan && x.removable))) ∧
    ((∀ x ∈ listing dir (some n), x.failure = none) →
      (cleanOldFiles now dir olderThan (some n)).2 = none) := by
  refine ⟨?_, ?_, ?_⟩
  · intro err herr
    rw [cleanOldFiles_error] at herr
    exact scan_error_cause now olderThan _ err herr
  · intro hwalk
    rw [cleanOldFiles_error] at hwalk
    have h1 := scan_no_error now olderThan _ hwalk
    refine ⟨?_, ?_, ?_⟩
    · intro p m _ hage
      rw [cleanOldFiles_listing, h1]
      simp [List.mem_filter, Entry.expired, Entry.removable, hage]
    · intro e he hkeep
      rw [cleanOldFiles_listing, h1]
      exact List.mem_filter.2 ⟨he, by simp [hkeep]⟩
    · rw [cleanOldFiles_listing, h1]
  · intro hwalk
    rw [cleanOldFiles_error]
    exact scan_all_walkable now olderThan _ hwalk

/-- Witness for C9 as amended: removing `b.zip` fails and the walk ends
without error; `a.zip` before it and `c.zip` after it are deleted, `b.zip` and
the empty directory stay. -/
theorem cleanOldFiles_remove_failure_does_not_abort_witness :
    (cleanOldFiles 100 "/app/output" 10 (some lockedTree)).2 = none ∧
    listing "/app/output" (cleanOldFiles 100 "/app/output" 10 (some lockedTree)).1
      = [⟨"/app/output", .dir true⟩, ⟨"/app/output/b.zip", .file 0 false⟩,
          ⟨"/app/output/empty", .dir true⟩] :=
  have h := (cleanOldFiles_remove_failure_does_not_abort 100 "/app/output" 10 lockedTree).2.1
    (by decide)
  ⟨by decide, h.2.2.trans (by decide)⟩

/-- C9, as stated, fails: removing `b.zip` fails; the directory `sub` after it
cannot be read, so the walk ends there; `z.zip`, another file of age 100
against a threshold of 10, removable, is not visited and is still there after
the sweep. -/
theorem cleanOldFiles_failed_removal_then_walk_failure :
    (⟨"/app/output/b.zip", .file 0 false⟩ : Entry)
      ∈ listing "/app/output" (some lockedUnreadableTree) ∧
    Sub 100 0 > 10 ∧
    (⟨"/app/output/z.zip", .file 0 true⟩ : Entry)
      ∈ listing "/app/output" (some lockedUnreadableTree) ∧
    (cleanOldFiles 100 "/app/output" 10 (some lockedUnreadableTree)).2 = some errReadDir ∧
    (⟨"/app/output/z.zip", .file 0 true⟩ : Entry)
      ∈ listing "/app/output"
        (cleanOldFiles 100 "/app/output" 10 (some lockedUnreadableTree)).1 := by
  decide

end FileZipper
